import Mathlib

/-!
Verification of the `events` log-reader package: the line-classification
grammar (`ParseEventLine` and its sub-parsers), the tailer's per-line loop
behaviour, and the TTL-cached `PlayerDirectory`.  Strings are embedded as
`List Char` (Go strings are byte sequences; all inputs of interest are
ASCII), durations as `Int` seconds, and wall-clock instants as `Nat`.
-/

namespace Events

/-- Strings are modelled as lists of characters. -/
abbrev Str := List Char

deriving instance DecidableEq for Except

/-- Whitespace as recognised by Go's `unicode.IsSpace` restricted to ASCII
(space, tab, newline, vertical tab, form feed, carriage return). -/
def goIsSpace (c : Char) : Bool :=
  c == ' ' || c == '\t' || c == '\n' || c == '\x0b' || c == '\x0c' || c == '\r'

/-- `strings.TrimRight(s, "\r\n")`: drop trailing carriage returns and newlines. -/
def isRN (c : Char) : Bool := c == '\r' || c == '\n'

def trimRightRN (s : Str) : Str := (s.reverse.dropWhile isRN).reverse

/-- Left half of `strings.TrimSpace`. -/
def trimLeftSpace (s : Str) : Str := s.dropWhile goIsSpace

/-- Right half of `strings.TrimSpace`. -/
def trimRightSpace (s : Str) : Str := (s.reverse.dropWhile goIsSpace).reverse

/-- `strings.TrimSpace`. -/
def trimSpace (s : Str) : Str := trimLeftSpace (trimRightSpace s)

/-- Helper for splitting: returns the first piece and the remaining pieces. -/
def splitOnPAux (p : Char → Bool) : Str → Str × List Str
  | [] => ([], [])
  | c :: rest =>
    let q := splitOnPAux p rest
    if p c then ([], q.1 :: q.2) else (c :: q.1, q.2)

/-- Split at every character satisfying `p`, keeping empty pieces
(the generalisation underlying both `strings.Split` and `strings.Fields`). -/
def splitOnP (p : Char → Bool) (s : Str) : List Str :=
  (splitOnPAux p s).1 :: (splitOnPAux p s).2

/-- `strings.Split(s, string(sep))` for a one-character separator. -/
def splitOnChar (sep : Char) (s : Str) : List Str := splitOnP (fun a => a == sep) s

/-- `strings.Fields`: split on whitespace runs, discarding empty pieces. -/
def fieldsFn (s : Str) : List Str := (splitOnP goIsSpace s).filter (fun t => !t.isEmpty)

/-- Split a string at the first occurrence of `sep`, if any. -/
def breakAtChar (sep : Char) : Str → Option (Str × Str)
  | [] => none
  | c :: rest =>
    if c = sep then some ([], rest)
    else (breakAtChar sep rest).map (fun q => (c :: q.1, q.2))

/-- `strings.SplitN(s, string(sep), n)`: at most `n` pieces, the last piece
holding the unsplit remainder. -/
def splitNChar (sep : Char) : Nat → Str → List Str
  | 0, _ => []
  | 1, s => [s]
  | n + 2, s =>
    match breakAtChar sep s with
    | none => [s]
    | some (pre, post) => pre :: splitNChar sep (n + 1) post

/-- `strings.Join(l, string(sep))` generalised to a string separator. -/
def joinSep (sep : Str) : List Str → Str
  | [] => []
  | [x] => x
  | x :: y :: ys => x ++ sep ++ joinSep sep (y :: ys)

/-- `strings.Contains(s, ";")`-style single-character containment. -/
def containsChar (c : Char) (s : Str) : Bool := s.any (fun a => a == c)

/-- `strings.Contains(hay, needle)`: substring containment. -/
def containsSub (hay needle : Str) : Bool :=
  match hay with
  | [] => needle.isEmpty
  | _ :: t => needle.isPrefixOf hay || containsSub t needle

/-- ASCII decimal digit test. -/
def isDigitCh (c : Char) : Bool := decide ('0' ≤ c) && decide (c ≤ '9')

def allDigits (s : Str) : Bool := s.all isDigitCh

def digitsToNat (s : Str) : Nat :=
  s.foldl (fun acc c => acc * 10 + (c.toNat - '0'.toNat)) 0

/-- `strconv.Atoi`: optional sign followed by at least one digit.
Overflow is not modelled (the slot and timestamp fields are small). -/
def atoi (s : Str) : Option Int :=
  match s with
  | [] => none
  | '+' :: rest =>
    if rest ≠ [] ∧ allDigits rest = true then some (Int.ofNat (digitsToNat rest)) else none
  | '-' :: rest =>
    if rest ≠ [] ∧ allDigits rest = true then some (-(Int.ofNat (digitsToNat rest))) else none
  | _ => if allDigits s = true then some (Int.ofNat (digitsToNat s)) else none

/-- `strings.ToLower` restricted to its per-character action. -/
def toLowerStr (s : Str) : Str := s.map Char.toLower

/-! ## The event data model (events.go) -/

/-- Fields shared by every event variant.  `timestamp` is the optional
duration-since-log-start in seconds (Go: `*time.Duration`). -/
structure BaseEvent where
  timestamp : Option Int
  command : Str
  raw : Str
deriving DecidableEq

structure PlayerEvent where
  base : BaseEvent
  xuid : Str
  flag : Int
  player : Str
  message : Str
deriving DecidableEq

/-- `Data` is Go's `map[string]string`; Go maps are unordered, so the map is
represented as an association list normalised by `mapInsert` (later
assignments to the same key overwrite). -/
structure ServerEvent where
  base : BaseEvent
  data : List (Str × Str)
deriving DecidableEq

structure KillEvent where
  base : BaseEvent
  killerXUID : Str
  killerClientNum : Int
  killerTeam : Str
  killerName : Str
  victimXUID : Str
  victimClientNum : Int
  victimTeam : Str
  victimName : Str
  weapon : Str
  damage : Str
  meansOfDeath : Str
  hitLocation : Str
deriving DecidableEq

/-- The closed event variant returned by `ParseEventLine`. -/
inductive Event where
  | base (e : BaseEvent)
  | player (e : PlayerEvent)
  | server (e : ServerEvent)
  | kill (e : KillEvent)
deriving DecidableEq

/-- `GetCommand`. -/
def Event.command : Event → Str
  | .base e => e.command
  | .player e => e.base.command
  | .server e => e.base.command
  | .kill e => e.base.command

/-- `GetTimestamp`. -/
def Event.timestamp : Event → Option Int
  | .base e => e.timestamp
  | .player e => e.base.timestamp
  | .server e => e.base.timestamp
  | .kill e => e.base.timestamp

/-- `GetRaw`. -/
def Event.raw : Event → Str
  | .base e => e.raw
  | .player e => e.base.raw
  | .server e => e.base.raw
  | .kill e => e.base.raw

/-! ## The line grammar (parser) -/

/-- Go map assignment `m[k] = v` on the association-list representation:
any previous binding of `k` is removed and the new binding appended. -/
def mapInsert (m : List (Str × Str)) (k v : Str) : List (Str × Str) :=
  (m.filter (fun q => !(q.1 == k))) ++ [(k, v)]

/-- Look a key up in the association-list representation of a Go map. -/
def kvGet (m : List (Str × Str)) (k : Str) : Option Str :=
  (m.find? (fun q => q.1 == k)).map (fun q => q.2)

/-- Group a list into consecutive pairs, dropping an unpaired trailing
element (the index arithmetic of the loop in `parseKeyValuePairs`). -/
def pairUp {α : Type} : List α → List (α × α)
  | a :: b :: rest => (a, b) :: pairUp rest
  | _ => []

/-- `parseKeyValuePairs`: trim the blob, split on backslashes, discard the
piece before the first backslash, and read the rest two pieces at a time
into the map. -/
def parseKeyValuePairs (s : Str) : List (Str × Str) :=
  if trimSpace s = [] then []
  else
    ((pairUp ((splitOnChar '\\' (trimSpace s)).drop 1)).foldl
      (fun m q => mapInsert m q.1 q.2) [])

/-- The character class `[A-Fa-f0-9_]` of the join-event regex. -/
def isHexU (c : Char) : Bool :=
  (decide ('0' ≤ c) && decide (c ≤ '9')) || (decide ('a' ≤ c) && decide (c ≤ 'f')) ||
  (decide ('A' ≤ c) && decide (c ≤ 'F')) || (c == '_')

/-- The xuid alternation `-?[A-Fa-f0-9_]{1,32}|bot[0-9]+|0` of the
join-event regex, matched against a whole (semicolon-free) field. -/
def matchesXuid (s : Str) : Bool :=
  (match s with
   | '-' :: rest => decide (1 ≤ rest.length) && decide (rest.length ≤ 32) && rest.all isHexU
   | _ => decide (1 ≤ s.length) && decide (s.length ≤ 32) && s.all isHexU)
  ||
  (match s with
   | 'b' :: 'o' :: 't' :: ds => (!ds.isEmpty) && allDigits ds
   | _ => false)
  || (s == "0".data)

/-- `parseJoinEvent`: the anchored regex
`^(J);(-?[A-Fa-f0-9_]{1,32}|bot[0-9]+|0);([0-9]+);(.*)$`.  Since none of
the first three groups can contain a semicolon, the regex match is exactly
the decomposition of the line at its first three semicolons. -/
def parseJoinEvent (l : Str) (ts : Option Int) (raw : Str) : Except String PlayerEvent :=
  match splitOnChar ';' l with
  | cmd :: xuid :: slotStr :: r0 :: rs =>
    if cmd = "J".data ∧ matchesXuid xuid = true ∧ slotStr ≠ [] ∧ allDigits slotStr = true then
      match atoi slotStr with
      | some n => Except.ok ⟨⟨ts, cmd, raw⟩, xuid, n, joinSep [';'] (r0 :: rs), []⟩
      | none => Except.error "invalid client number"
    else Except.error "not a join event"
  | _ => Except.error "not a join event"

/-- `parseKillEvent`: exactly 13 semicolon-delimited fields, first field
literally `K`, integer slots at positions 2 and 6. -/
def parseKillEvent (l : Str) (ts : Option Int) (raw : Str) : Except String KillEvent :=
  if (splitOnChar ';' l).length ≠ 13 then
    Except.error "not a kill event - wrong field count"
  else if (splitOnChar ';' l).getD 0 [] ≠ "K".data then Except.error "not a kill event"
  else
    match atoi ((splitOnChar ';' l).getD 2 []) with
    | none => Except.error "invalid killer client number"
    | some kc =>
      match atoi ((splitOnChar ';' l).getD 6 []) with
      | none => Except.error "invalid victim client number"
      | some vc =>
        Except.ok ⟨⟨ts, "K".data, raw⟩, (splitOnChar ';' l).getD 1 [], kc,
          (splitOnChar ';' l).getD 3 [], (splitOnChar ';' l).getD 4 [],
          (splitOnChar ';' l).getD 5 [], vc, (splitOnChar ';' l).getD 7 [],
          (splitOnChar ';' l).getD 8 [], (splitOnChar ';' l).getD 9 [],
          (splitOnChar ';' l).getD 10 [], (splitOnChar ';' l).getD 11 [],
          (splitOnChar ';' l).getD 12 []⟩

/-- `parsePlayerEvent` (generic player fallback): split into at most 5
semicolon fields, require at least 4, with an integer slot field. -/
def parsePlayerEvent (l : Str) (ts : Option Int) (raw : Str) : Except String PlayerEvent :=
  if (splitNChar ';' 5 l).length < 4 then Except.error "invalid player event line"
  else
    match atoi (trimSpace ((splitNChar ';' 5 l).getD 2 [])) with
    | none => Except.error "invalid flag"
    | some flag =>
      Except.ok ⟨⟨ts, trimSpace ((splitNChar ';' 5 l).getD 0 []), raw⟩,
        trimSpace ((splitNChar ';' 5 l).getD 1 []), flag,
        trimSpace ((splitNChar ';' 5 l).getD 3 []),
        if (splitNChar ';' 5 l).length = 5 then trimSpace ((splitNChar ';' 5 l).getD 4 [])
        else []⟩

/-- `parseChatPlayerEvent`: whitespace fields, at least 3; the remainder is
rejoined with single spaces as the message. -/
def parseChatPlayerEvent (l : Str) (ts : Option Int) (raw : Str) : Except String PlayerEvent :=
  if (fieldsFn l).length < 3 then Except.error "invalid chat play event line"
  else
    Except.ok ⟨⟨ts, (fieldsFn l).getD 0 [], raw⟩, [], 0, (fieldsFn l).getD 1 [],
      joinSep [' '] ((fieldsFn l).drop 2)⟩

/-- `parseTimestamp`: `M:S` or `H:M:S` with `strconv.Atoi` components,
returning total seconds (Go multiplies by `time.Second`; we keep seconds). -/
def parseTimestamp (s : Str) : Except String Int :=
  if (splitOnChar ':' s).length < 2 ∨ 3 < (splitOnChar ':' s).length then
    Except.error "invalid timestamp"
  else
    match (splitOnChar ':' s).mapM atoi with
    | none => Except.error "invalid number"
    | some nums =>
      match nums with
      | [m, sec] => Except.ok (m * 60 + sec)
      | [h, m, sec] => Except.ok (h * 3600 + m * 60 + sec)
      | _ => Except.ok 0

/-- The timestamp-stripping preamble of `ParseEventLine`, applied to the
already-trimmed line: if there is more than one whitespace field and the
first contains a colon and parses as a timestamp, record it and rejoin the
remaining fields with single spaces; otherwise leave the line untouched. -/
def stripTs (l : Str) : Option Int × Str :=
  if 1 < (fieldsFn l).length then
    if containsChar ':' ((fieldsFn l).getD 0 []) = true then
      match parseTimestamp ((fieldsFn l).getD 0 []) with
      | Except.ok d => (some d, joinSep [' '] ((fieldsFn l).drop 1))
      | Except.error _ => (none, l)
    else (none, l)
  else (none, l)

/-- The classification order of `ParseEventLine` after trimming and
timestamp stripping (`raw` is the trimmed line before stripping). -/
def classifyLine (ts : Option Int) (raw l : Str) : Except String Event :=
  if "InitGame:".data.isPrefixOf l then
    Except.ok (Event.server ⟨⟨ts, "InitGame".data, raw⟩, parseKeyValuePairs (l.drop 9)⟩)
  else if "ShutdownGame:".data.isPrefixOf l then
    Except.ok (Event.server ⟨⟨ts, "ShutdownGame".data, raw⟩, []⟩)
  else if containsChar ';' l = true then
    match parseJoinEvent l ts raw with
    | Except.ok ev => Except.ok (Event.player ev)
    | Except.error _ =>
      match parseKillEvent l ts raw with
      | Except.ok ev => Except.ok (Event.kill ev)
      | Except.error _ => (parsePlayerEvent l ts raw).map Event.player
  else if "say ".data.isPrefixOf l || "sayteam ".data.isPrefixOf l then
    (parseChatPlayerEvent l ts raw).map Event.player
  else Except.ok (Event.base ⟨ts, l, raw⟩)

/-- `ParseEventLine`: trim, reject empty, strip an optional leading
timestamp, then classify. -/
def ParseEventLine (line : Str) : Except String Event :=
  if trimSpace line = [] then Except.error "empty line"
  else
    classifyLine (stripTs (trimSpace line)).1 (trimSpace line)
      (stripTs (trimSpace line)).2

/-! ## The tailer loop (tailer.go)

`TailFileContext` is an I/O loop; its algorithmic content is embedded in two
layers.  `handleLine`/`processLines` model the body that runs once a complete
line has been read: trailing `\r\n` trimming, the empty-line skip, and the
classify-or-log-and-continue decision (the channel send is modelled by the
output list).  `tailStep` models one whole loop iteration as a function of
the environment's responses (read outcome, `os.Stat` outcome, cancellation),
covering the end-of-file/rotation/poll logic. -/

/-- The per-line body of the tail loop: `none` means the line is discarded
(empty, or logged as a parse failure) and the loop continues; `some ev`
means `ev` is sent on the events channel. -/
def handleLine (line : Str) : Option Event :=
  if trimRightRN line = [] then none
  else
    match ParseEventLine (trimRightRN line) with
    | Except.error _ => none
    | Except.ok ev => some ev

/-- The events published for a finite sequence of complete lines read by the
tail loop, in read order. -/
def processLines : List Str → List Event
  | [] => []
  | l :: rest =>
    match handleLine l with
    | none => processLines rest
    | some ev => ev :: processLines rest

/-- What `buf.ReadString('\n')` produced this iteration. -/
inductive ReadResult where
  | line (s : Str)
  | eofHit
  | readErr
deriving DecidableEq

/-- What `os.Stat(path)` produced, compared against the open handle:
`ok same size` carries `os.SameFile(stat, curStat)` and `stat.Size()`. -/
inductive StatResult where
  | ok (same : Bool) (size : Int)
  | statErr
deriving DecidableEq

/-- The tailing position: the open handle's current read offset. -/
structure TailState where
  offset : Int
deriving DecidableEq

/-- The outcome of one loop iteration.  `sleepPoll` is the cancellable
`time.After(pollInterval)` wait; `rotate` is the close-and-reopen path
(which restarts reading at offset 0); `cancelled` and `fatal` terminate
the loop. -/
inductive StepOutcome where
  | cancelled
  | fatal
  | emit (ev : Event)
  | drop
  | sleepPoll
  | rotate
deriving DecidableEq

/-- One iteration of the `TailFileContext` loop. -/
def tailStep (cancelled : Bool) (st : TailState) (r : ReadResult) (stat : StatResult) :
    StepOutcome × TailState :=
  if cancelled then (StepOutcome.cancelled, st)
  else
    match r with
    | ReadResult.readErr => (StepOutcome.fatal, st)
    | ReadResult.line s =>
      let st2 : TailState := ⟨st.offset + Int.ofNat s.length⟩
      match handleLine s with
      | none => (StepOutcome.drop, st2)
      | some ev => (StepOutcome.emit ev, st2)
    | ReadResult.eofHit =>
      match stat with
      | StatResult.statErr => (StepOutcome.sleepPoll, st)
      | StatResult.ok same size =>
        if !same || size < st.offset then (StepOutcome.rotate, ⟨0⟩)
        else (StepOutcome.sleepPoll, st)

/-! ## The player directory (tailer.go, second half) -/

structure Player where
  clientNum : Int
  name : Str
  guid : Str
deriving DecidableEq

/-- The mutable state of a `PlayerDirectory`: the cached snapshot, its
expiry instant, and the TTL.  Instants and durations are abstract `Nat`
ticks; the external `PlayerSource` is supplied per call as the outcome its
`Status()` would produce. -/
structure PlayerDirectory where
  players : List Player
  expires : Nat
  ttl : Nat
deriving DecidableEq

/-- `NewPlayerDirectory`: a non-positive TTL is replaced by the 2-second
default (2 ticks here; the unit is irrelevant to the claims). -/
def NewPlayerDirectory (ttl : Int) : PlayerDirectory :=
  ⟨[], 0, if ttl ≤ 0 then 2 else ttl.toNat⟩

/-- `Snapshot`, with `now` the current instant and `src` the result the
source's `Status()` call would return.  The third component records whether
the source was invoked.  Go's slice copies are identity on immutable lists,
so the "defensive copy" is the returned list itself. -/
def Snapshot (d : PlayerDirectory) (now : Nat) (src : Except String (List Player)) :
    Except String (List Player) × PlayerDirectory × Bool :=
  if 0 < d.players.length ∧ now < d.expires then
    (Except.ok d.players, d, false)
  else
    match src with
    | Except.error e => (Except.error e, d, true)
    | Except.ok ps => (Except.ok ps, { d with players := ps, expires := now + d.ttl }, true)

/-- `stripColorCodes`: a caret and its following character are removed as a
pair; a trailing unpaired caret is removed alone. -/
def stripColorCodes : Str → Str
  | [] => []
  | c :: rest =>
    if c = '^' then
      match rest with
      | [] => []
      | _ :: rest2 => stripColorCodes rest2
    else c :: stripColorCodes rest

/-- `FindByName`. -/
def FindByName (d : PlayerDirectory) (now : Nat) (src : Except String (List Player))
    (name0 : Str) : Except String (Option Player) × PlayerDirectory × Bool :=
  let name := trimSpace (stripColorCodes name0)
  if name = [] then (Except.ok none, d, false)
  else
    match Snapshot d now src with
    | (Except.error e, d2, c) => (Except.error e, d2, c)
    | (Except.ok players, d2, c) =>
      let lower := toLowerStr name
      (Except.ok (players.find? fun p => containsSub (toLowerStr (stripColorCodes p.name)) lower),
        d2, c)

/-- `FindByClientNum`. -/
def FindByClientNum (d : PlayerDirectory) (now : Nat) (src : Except String (List Player))
    (clientNum : Int) : Except String (Option Player) × PlayerDirectory × Bool :=
  match Snapshot d now src with
  | (Except.error e, d2, c) => (Except.error e, d2, c)
  | (Except.ok players, d2, c) =>
    (Except.ok (players.find? fun p => p.clientNum == clientNum), d2, c)

/-- `Invalidate`. -/
def Invalidate (d : PlayerDirectory) : PlayerDirectory :=
  { d with players := [], expires := 0 }

/-! ## Claim-side definitions -/

/-- Re-serialization of a parsed key/value mapping as a run of
backslash-delimited `\key\value` pairs, as described by the round-trip
property; this operation has no counterpart in the source and exists only
to state that property. -/
def serializeKV : List (Str × Str) → Str
  | [] => []
  | (k, v) :: rest => '\\' :: (k ++ '\\' :: (v ++ serializeKV rest))

/-- The matching predicate of `FindByName` as the specification words it:
the color-stripped, lowercased stored name contains the (already stripped
and trimmed) query, lowercased, as a substring. -/
def nameMatches (query : Str) (p : Player) : Bool :=
  containsSub (toLowerStr (stripColorCodes p.name)) (toLowerStr query)

/-- Whether an `Except` is a success. -/
def exceptOk {ε α : Type} : Except ε α → Bool
  | Except.ok _ => true
  | Except.error _ => false

/-- The keys and values of a pair list, interleaved in order (the inverse
view of `pairUp`). -/
def flattenKV : List (Str × Str) → List Str
  | [] => []
  | (k, v) :: rest => k :: v :: flattenKV rest

/-! ## Helper lemmas -/

lemma dropWhile_head_not (p : Char → Bool) (l : Str) (a : Char)
    (h : (l.dropWhile p).head? = some a) : p a = false := by
  induction l with
  | nil => simp at h
  | cons c r ih =>
    by_cases hp : p c = true
    · rw [List.dropWhile_cons_of_pos hp] at h
      exact ih h
    · rw [List.dropWhile_cons_of_neg hp] at h
      simp only [List.head?_cons, Option.some.injEq] at h
      rw [← h]
      exact Bool.eq_false_iff.mpr hp

lemma dropWhile_eq_self_of_head (p : Char → Bool) (l : Str)
    (h : ∀ a, l.head? = some a → p a = false) : l.dropWhile p = l := by
  cases l with
  | nil => rfl
  | cons c r => exact List.dropWhile_cons_of_neg (by simp [h c rfl])

lemma trimSpace_head_not_space (s : Str) (a : Char)
    (h : (trimSpace s).head? = some a) : goIsSpace a = false :=
  dropWhile_head_not goIsSpace (trimRightSpace s) a h

lemma trimRightSpace_subset (s : Str) (c : Char) (h : c ∈ trimRightSpace s) : c ∈ s := by
  unfold trimRightSpace at h
  rw [List.mem_reverse] at h
  exact List.mem_reverse.mp ((List.dropWhile_sublist goIsSpace).subset h)

lemma trimSpace_eq_nil_iff (s : Str) : trimSpace s = [] ↔ ∀ c ∈ s, goIsSpace c = true := by
  unfold trimSpace trimLeftSpace
  rw [List.dropWhile_eq_nil_iff]
  constructor
  · intro h c hc
    by_cases hmem : c ∈ trimRightSpace s
    · exact h c hmem
    · have hrev : c ∈ s.reverse := List.mem_reverse.mpr hc
      rw [← List.takeWhile_append_dropWhile goIsSpace s.reverse,
        List.mem_append] at hrev
      rcases hrev with h1 | h1
      · exact List.mem_takeWhile_imp h1
      · exact absurd (List.mem_reverse.mpr h1) hmem
  · intro h c hc
    exact h c (trimRightSpace_subset s c hc)

lemma trimSpace_eq_self (s : Str)
    (h1 : ∀ a, s.head? = some a → goIsSpace a = false)
    (h2 : ∀ a, s.getLast? = some a → goIsSpace a = false) : trimSpace s = s := by
  unfold trimSpace trimRightSpace trimLeftSpace
  rw [dropWhile_eq_self_of_head goIsSpace s.reverse
      (fun a ha => h2 a (by rwa [List.head?_reverse] at ha)),
    List.reverse_reverse]
  exact dropWhile_eq_self_of_head goIsSpace s h1

lemma dropWhile_dropWhile_of_imp (p q : Char → Bool) (l : Str)
    (himp : ∀ c, q c = true → p c = true) :
    (l.dropWhile q).dropWhile p = l.dropWhile p := by
  induction l with
  | nil => rfl
  | cons c r ih =>
    by_cases hq : q c = true
    · rw [List.dropWhile_cons_of_pos hq, ih, List.dropWhile_cons_of_pos (himp c hq)]
    · rw [List.dropWhile_cons_of_neg hq]

lemma trimSpace_trimRightRN (s : Str) : trimSpace (trimRightRN s) = trimSpace s := by
  unfold trimSpace trimRightSpace trimRightRN
  rw [List.reverse_reverse,
    dropWhile_dropWhile_of_imp goIsSpace isRN s.reverse
      (fun c hc => by
        unfold isRN at hc
        unfold goIsSpace
        rcases Bool.or_eq_true_iff.mp hc with h | h <;> simp [h])]

lemma ParseEventLine_congr (a b : Str) (h : trimSpace a = trimSpace b) :
    ParseEventLine a = ParseEventLine b := by
  unfold ParseEventLine
  rw [h]

lemma splitOnP_ne_nil (p : Char → Bool) (l : Str) : splitOnP p l ≠ [] := by
  simp [splitOnP]

lemma splitOnPAux_no_p (p : Char → Bool) (l : Str) :
    (∀ c ∈ (splitOnPAux p l).1, p c = false) ∧
    (∀ t ∈ (splitOnPAux p l).2, ∀ c ∈ t, p c = false) := by
  induction l with
  | nil => simp [splitOnPAux]
  | cons a r ih =>
    unfold splitOnPAux
    by_cases hp : p a = true
    · simp only [hp, if_true]
      refine ⟨by simp, ?_⟩
      intro t ht c hc
      rcases List.mem_cons.mp ht with ht | ht
      · subst ht; exact ih.1 c hc
      · exact ih.2 t ht c hc
    · simp only [hp, if_false, Bool.false_eq_true]
      refine ⟨?_, ih.2⟩
      intro c hc
      rcases List.mem_cons.mp hc with hc | hc
      · subst hc; exact Bool.eq_false_iff.mpr hp
      · exact ih.1 c hc

lemma splitOnP_mem_no_p (p : Char → Bool) (l : Str) :
    ∀ t ∈ splitOnP p l, ∀ c ∈ t, p c = false := by
  intro t ht
  unfold splitOnP at ht
  rcases List.mem_cons.mp ht with ht | ht
  · subst ht; exact (splitOnPAux_no_p p l).1
  · exact (splitOnPAux_no_p p l).2 t ht

lemma splitOnPAux_all_not (p : Char → Bool) (l : Str)
    (h : ∀ c ∈ l, p c = false) : splitOnPAux p l = (l, []) := by
  induction l with
  | nil => rfl
  | cons c r ih =>
    unfold splitOnPAux
    have hc : p c = false := h c (List.mem_cons_self c r)
    simp only [hc, if_false, Bool.false_eq_true]
    rw [ih (fun a ha => h a (List.mem_cons_of_mem c ha))]

lemma splitOnP_all_not (p : Char → Bool) (l : Str)
    (h : ∀ c ∈ l, p c = false) : splitOnP p l = [l] := by
  unfold splitOnP
  rw [splitOnPAux_all_not p l h]

lemma fieldsFn_single (l : Str) (hne : l ≠ [])
    (h : ∀ c ∈ l, goIsSpace c = false) : fieldsFn l = [l] := by
  unfold fieldsFn
  rw [splitOnP_all_not goIsSpace l h]
  simp [hne]

lemma fieldsFn_mem (l : Str) :
    ∀ t ∈ fieldsFn l, t ≠ [] ∧ ∀ c ∈ t, goIsSpace c = false := by
  intro t ht
  unfold fieldsFn at ht
  rw [List.mem_filter] at ht
  refine ⟨by simpa using ht.2, splitOnP_mem_no_p goIsSpace l t ht.1⟩

lemma joinSep_head? (sep : Str) (t : Str) (ts : List Str) (h : t ≠ []) :
    (joinSep sep (t :: ts)).head? = t.head? := by
  cases ts with
  | nil => rfl
  | cons y ys =>
    cases t with
    | nil => exact absurd rfl h
    | cons a t' => rfl

lemma joinSep_ne_nil (sep : Str) (t : Str) (ts : List Str) (h : t ≠ []) :
    joinSep sep (t :: ts) ≠ [] := by
  cases ts with
  | nil => exact h
  | cons y ys =>
    cases t with
    | nil => exact absurd rfl h
    | cons a t' => simp [joinSep]

lemma breakAtChar_eq_some (sep : Char) (l pre post : Str)
    (h : breakAtChar sep l = some (pre, post)) :
    l = pre ++ sep :: post ∧ ∀ c ∈ pre, c ≠ sep := by
  induction l generalizing pre post with
  | nil => simp [breakAtChar] at h
  | cons c r ih =>
    unfold breakAtChar at h
    by_cases hc : c = sep
    · rw [if_pos hc] at h
      simp only [Option.some.injEq, Prod.mk.injEq] at h
      obtain ⟨h1, h2⟩ := h
      subst h1; subst h2; subst hc
      exact ⟨rfl, by simp⟩
    · rw [if_neg hc] at h
      cases hb : breakAtChar sep r with
      | none => rw [hb] at h; simp at h
      | some q =>
        rw [hb] at h
        simp only [Option.map_some', Option.some.injEq, Prod.mk.injEq] at h
        obtain ⟨h1, h2⟩ := h
        obtain ⟨hr, hfree⟩ := ih q.1 q.2 (by rw [hb])
        subst h2
        rw [← h1]
        constructor
        · rw [List.cons_append, ← hr]
        · intro x hx
          rcases List.mem_cons.mp hx with hx | hx
          · subst hx; exact hc
          · exact hfree x hx

lemma splitN5_eq (s : Str) :
    splitNChar ';' 5 s =
      (match breakAtChar ';' s with
       | none => [s]
       | some (pre, post) => pre :: splitNChar ';' 4 post) := rfl

lemma splitN5_head (l : Str) (hl : l ≠ []) :
    ((splitNChar ';' 5 l).getD 0 [] = [] → l.head? = some ';') ∧
    (∀ a, ((splitNChar ';' 5 l).getD 0 []).head? = some a → l.head? = some a) := by
  rw [splitN5_eq]
  cases hb : breakAtChar ';' l with
  | none =>
    refine ⟨fun h => absurd h hl, fun a ha => ha⟩
  | some q =>
    obtain ⟨hdec, -⟩ := breakAtChar_eq_some ';' l q.1 q.2 (by rw [hb])
    constructor
    · intro h
      simp only [List.getD_cons_zero] at h
      rw [hdec, h]
      rfl
    · intro a ha
      simp only [List.getD_cons_zero] at ha
      rw [hdec]
      cases hq : q.1 with
      | nil => rw [hq] at ha; simp at ha
      | cons b bs =>
        rw [hq] at ha
        simp only [List.head?_cons, Option.some.injEq] at ha
        subst ha
        rfl

/-- A non-empty cached snapshot that has not expired is served from the
cache without touching the state or the source. -/
lemma snapshot_cacheHit (d : PlayerDirectory) (now : Nat) (src : Except String (List Player))
    (hne : d.players ≠ []) (hlt : now < d.expires) :
    Snapshot d now src = (Except.ok d.players, d, false) := by
  unfold Snapshot
  rw [if_pos ⟨List.length_pos.mpr hne, hlt⟩]

lemma stripTs_single (l : Str) (h : ¬ 1 < (fieldsFn l).length) : stripTs l = (none, l) := by
  simp only [stripTs]
  rw [if_neg h]

lemma stripTs_cases (l : Str) :
    stripTs l = (none, l) ∨
    ∃ d t ts, fieldsFn l = t :: ts ∧ ts ≠ [] ∧ stripTs l = (some d, joinSep [' '] ts) := by
  simp only [stripTs]
  by_cases hA : 1 < (fieldsFn l).length
  · rw [if_pos hA]
    by_cases hB : containsChar ':' ((fieldsFn l).getD 0 []) = true
    · rw [if_pos hB]
      cases hp : parseTimestamp ((fieldsFn l).getD 0 []) with
      | error e => exact Or.inl rfl
      | ok d =>
        refine Or.inr ?_
        cases hf : fieldsFn l with
        | nil => rw [hf] at hA; simp at hA
        | cons t ts =>
          refine ⟨d, t, ts, rfl, ?_, ?_⟩
          · intro hts
            rw [hf, hts] at hA
            simp at hA
          · simp
    · rw [if_neg hB]
      exact Or.inl rfl
  · rw [if_neg hA]
    exact Or.inl rfl

lemma parseJoinEvent_ok (l : Str) (ts : Option Int) (raw : Str) (pe : PlayerEvent)
    (h : parseJoinEvent l ts raw = Except.ok pe) :
    pe.base.command = "J".data ∧ pe.base.timestamp = ts := by
  unfold parseJoinEvent at h
  repeat' split at h
  all_goals cases h
  rename_i hcond x n heq
  exact ⟨hcond.1, rfl⟩

lemma parseKillEvent_ok (l : Str) (ts : Option Int) (raw : Str) (ke : KillEvent)
    (h : parseKillEvent l ts raw = Except.ok ke) :
    ke.base.command = "K".data ∧ ke.base.timestamp = ts := by
  unfold parseKillEvent at h
  repeat' split at h
  all_goals cases h
  exact ⟨rfl, rfl⟩

lemma parsePlayerEvent_ok (l : Str) (ts : Option Int) (raw : Str) (pe : PlayerEvent)
    (h : parsePlayerEvent l ts raw = Except.ok pe) :
    pe.base.command = trimSpace ((splitNChar ';' 5 l).getD 0 []) ∧ pe.base.timestamp = ts := by
  unfold parsePlayerEvent at h
  repeat' split at h
  all_goals cases h
  all_goals exact ⟨rfl, rfl⟩

lemma parseChatPlayerEvent_ok (l : Str) (ts : Option Int) (raw : Str) (pe : PlayerEvent)
    (h : parseChatPlayerEvent l ts raw = Except.ok pe) :
    pe.base.command = (fieldsFn l).getD 0 [] ∧ 3 ≤ (fieldsFn l).length ∧
      pe.base.timestamp = ts := by
  unfold parseChatPlayerEvent at h
  split at h
  · cases h
  · rename_i hlen
    cases h
    exact ⟨rfl, by omega, rfl⟩

lemma classifyLine_ok_timestamp (ts : Option Int) (raw l : Str) (ev : Event)
    (h : classifyLine ts raw l = Except.ok ev) : ev.timestamp = ts := by
  unfold classifyLine at h
  split at h
  · simp only [Except.ok.injEq] at h
    rw [← h]; rfl
  · split at h
    · simp only [Except.ok.injEq] at h
      rw [← h]; rfl
    · split at h
      · -- semicolon branch
        cases hj : parseJoinEvent l ts raw with
        | ok pj =>
          rw [hj] at h
          simp only [Except.ok.injEq] at h
          rw [← h]
          exact (parseJoinEvent_ok l ts raw pj hj).2
        | error ej =>
          rw [hj] at h
          cases hk : parseKillEvent l ts raw with
          | ok pk =>
            rw [hk] at h
            simp only [Except.ok.injEq] at h
            rw [← h]
            exact (parseKillEvent_ok l ts raw pk hk).2
          | error ek =>
            rw [hk] at h
            cases hp : parsePlayerEvent l ts raw with
            | ok pp =>
              rw [hp] at h
              simp only [Except.map] at h
              cases h
              exact (parsePlayerEvent_ok l ts raw pp hp).2
            | error ep =>
              rw [hp] at h
              simp only [Except.map] at h
              cases h
      · split at h
        · cases hc : parseChatPlayerEvent l ts raw with
          | ok pc =>
            rw [hc] at h
            simp only [Except.map] at h
            cases h
            exact (parseChatPlayerEvent_ok l ts raw pc hc).2.2
          | error ec =>
            rw [hc] at h
            simp only [Except.map] at h
            cases h
        · simp only [Except.ok.injEq] at h
          rw [← h]; rfl

lemma pairUp_flattenKV (m : List (Str × Str)) : pairUp (flattenKV m) = m := by
  induction m with
  | nil => rfl
  | cons q rest ih =>
    obtain ⟨k, v⟩ := q
    show pairUp (k :: v :: flattenKV rest) = (k, v) :: rest
    rw [pairUp, ih]

lemma pairUp_mem {α : Type} : ∀ (l : List α) (a b : α), (a, b) ∈ pairUp l → a ∈ l ∧ b ∈ l
  | [], _, _, h => by simp [pairUp] at h
  | [_], _, _, h => by simp [pairUp] at h
  | x :: y :: rest, a, b, h => by
    rw [pairUp] at h
    rcases List.mem_cons.mp h with h | h
    · simp only [Prod.mk.injEq] at h
      rw [h.1, h.2]
      exact ⟨List.mem_cons_self x _, List.mem_cons_of_mem x (List.mem_cons_self y rest)⟩
    · have := pairUp_mem rest a b h
      exact ⟨List.mem_cons_of_mem x (List.mem_cons_of_mem y this.1),
        List.mem_cons_of_mem x (List.mem_cons_of_mem y this.2)⟩

lemma splitOnP_cons_sep (p : Char → Bool) (c : Char) (x : Str) (hc : p c = true) :
    splitOnP p (c :: x) = [] :: splitOnP p x := by
  simp [splitOnP, splitOnPAux, hc]

lemma splitOnP_append_free (p : Char → Bool) (x : Str) (c : Char) (rest : Str)
    (hx : ∀ a ∈ x, p a = false) (hc : p c = true) :
    splitOnP p (x ++ c :: rest) = x :: splitOnP p rest := by
  induction x with
  | nil => simpa using splitOnP_cons_sep p c rest hc
  | cons a x' ih =>
    have ha : p a = false := hx a (List.mem_cons_self a x')
    have ih' := ih (fun b hb => hx b (List.mem_cons_of_mem a hb))
    rw [List.cons_append]
    unfold splitOnP at ih' ⊢
    have h1 := (List.cons.inj ih').1
    have h2 := (List.cons.inj ih').2
    rw [show splitOnPAux p (a :: (x' ++ c :: rest)) =
        (a :: (splitOnPAux p (x' ++ c :: rest)).1, (splitOnPAux p (x' ++ c :: rest)).2) from by
      simp [splitOnPAux, ha]]
    rw [h1, h2]

lemma serializeKV_cons (k v : Str) (rest : List (Str × Str)) :
    serializeKV ((k, v) :: rest) = '\\' :: (k ++ '\\' :: (v ++ serializeKV rest)) := rfl

lemma splitOnChar_serializeKV :
    ∀ (m : List (Str × Str)), m ≠ [] →
    (∀ q ∈ m, (∀ c ∈ q.1, (c == '\\') = false) ∧ (∀ c ∈ q.2, (c == '\\') = false)) →
    splitOnChar '\\' (serializeKV m) = [] :: flattenKV m
  | [], hm, _ => absurd rfl hm
  | (k, v) :: rest, _, hfree => by
    have hkfree := (hfree (k, v) (List.mem_cons_self _ rest)).1
    have hvfree := (hfree (k, v) (List.mem_cons_self _ rest)).2
    rw [serializeKV_cons]
    unfold splitOnChar
    rw [splitOnP_cons_sep _ _ _ (by simp), splitOnP_append_free _ k _ _ hkfree (by simp)]
    cases rest with
    | nil =>
      simp only [serializeKV, List.append_nil]
      rw [splitOnP_all_not _ v hvfree]
      rfl
    | cons r rs =>
      obtain ⟨k2, v2⟩ := r
      have ihrec := splitOnChar_serializeKV ((k2, v2) :: rs) (by simp)
        (fun q hq => hfree q (List.mem_cons_of_mem _ hq))
      rw [serializeKV_cons] at ihrec ⊢
      unfold splitOnChar at ihrec
      rw [splitOnP_cons_sep _ _ _ (by simp)] at ihrec
      have htail : splitOnP (fun a => a == '\\') (k2 ++ '\\' :: (v2 ++ serializeKV rs)) =
          flattenKV ((k2, v2) :: rs) := List.cons.inj ihrec |>.2
      rw [splitOnP_append_free _ v _ _ hvfree (by simp)]
      rw [htail]
      rfl

lemma serializeKV_getLast_not_space :
    ∀ (m : List (Str × Str)),
    (∀ q ∈ m, ∀ c, q.2.getLast? = some c → goIsSpace c = false) →
    ∀ c, (serializeKV m).getLast? = some c → goIsSpace c = false
  | [], _, c, hc => by simp [serializeKV] at hc
  | (k, v) :: rest, hval, c, hc => by
    rw [serializeKV_cons] at hc
    cases hrest : rest with
    | cons r rs =>
      have hner : serializeKV rest ≠ [] := by
        rw [hrest]
        obtain ⟨k2, v2⟩ := r
        rw [serializeKV_cons]
        simp
      rw [show ('\\' :: (k ++ '\\' :: (v ++ serializeKV rest))) =
          ('\\' :: (k ++ '\\' :: v)) ++ serializeKV rest by simp,
        List.getLast?_append_of_ne_nil _ hner] at hc
      exact serializeKV_getLast_not_space rest
        (fun q hq => hval q (List.mem_cons_of_mem _ hq)) c hc
    | nil =>
      rw [hrest] at hc
      by_cases hv : v = []
      · rw [hv] at hc
        simp only [serializeKV, List.append_nil] at hc
        rw [show ('\\' :: (k ++ ['\\'])) = ('\\' :: k) ++ ['\\'] by simp,
          List.getLast?_append_of_ne_nil _ (by simp)] at hc
        simp only [List.getLast?_singleton, Option.some.injEq] at hc
        rw [← hc]
        decide
      · rw [show ('\\' :: (k ++ '\\' :: (v ++ serializeKV []))) =
            ('\\' :: (k ++ ['\\'])) ++ v by simp [serializeKV],
          List.getLast?_append_of_ne_nil _ hv] at hc
        exact hval (k, v) (List.mem_cons_self (k, v) rest) c hc

lemma mapInsert_keys_nodup (acc : List (Str × Str)) (k v : Str)
    (h : (acc.map Prod.fst).Nodup) : ((mapInsert acc k v).map Prod.fst).Nodup := by
  unfold mapInsert
  rw [List.map_append]
  apply List.Nodup.append
  · exact h.sublist ((List.filter_sublist acc).map Prod.fst)
  · simp
  · intro a ha hb
    simp only [List.map_cons, List.map_nil, List.mem_singleton] at hb
    subst hb
    obtain ⟨q, hq, hqa⟩ := List.mem_map.mp ha
    have := (List.mem_filter.mp hq).2
    simp only [Bool.not_eq_eq_eq_not, Bool.not_true, beq_eq_false_iff_ne] at this
    exact this (by rw [hqa])

lemma foldKV_keys_nodup :
    ∀ (l acc : List (Str × Str)), (acc.map Prod.fst).Nodup →
    ((l.foldl (fun m q => mapInsert m q.1 q.2) acc).map Prod.fst).Nodup
  | [], _, h => h
  | q :: rest, acc, h =>
    foldKV_keys_nodup rest (mapInsert acc q.1 q.2) (mapInsert_keys_nodup acc q.1 q.2 h)

lemma foldKV_mem :
    ∀ (l acc : List (Str × Str)) (q : Str × Str),
    q ∈ l.foldl (fun m r => mapInsert m r.1 r.2) acc → q ∈ acc ∨ q ∈ l
  | [], _, _, h => Or.inl h
  | r :: rest, acc, q, h => by
    rcases foldKV_mem rest (mapInsert acc r.1 r.2) q h with h2 | h2
    · unfold mapInsert at h2
      rcases List.mem_append.mp h2 with h3 | h3
      · exact Or.inl (List.mem_filter.mp h3).1
      · simp only [List.mem_singleton] at h3
        exact Or.inr (by rw [h3]; exact List.mem_cons_self r rest)
    · exact Or.inr (List.mem_cons_of_mem r h2)

lemma foldKV_id :
    ∀ (l acc : List (Str × Str)), ((l.map Prod.fst).Nodup) →
    (∀ q ∈ l, ∀ r ∈ acc, q.1 ≠ r.1) →
    l.foldl (fun m q => mapInsert m q.1 q.2) acc = acc ++ l
  | [], acc, _, _ => by simp
  | (k, v) :: rest, acc, hnodup, hdisj => by
    have hins : mapInsert acc k v = acc ++ [(k, v)] := by
      unfold mapInsert
      rw [List.filter_eq_self.mpr]
      intro r hr
      have hne : k ≠ r.1 := hdisj (k, v) (List.mem_cons_self _ rest) r hr
      simp only [Bool.not_eq_eq_eq_not, Bool.not_true, beq_eq_false_iff_ne]
      exact fun hcon => hne hcon.symm
    have hnodup' : k ∉ rest.map Prod.fst ∧ (rest.map Prod.fst).Nodup := by
      rw [List.map_cons, List.nodup_cons] at hnodup
      exact hnodup
    have := foldKV_id rest (acc ++ [(k, v)]) hnodup'.2
      (by
        intro q hq r hr
        rcases List.mem_append.mp hr with hr | hr
        · exact hdisj q (List.mem_cons_of_mem _ hq) r hr
        · simp only [List.mem_singleton] at hr
          subst hr
          intro hcon
          have hcon' : q.1 = k := hcon
          exact hnodup'.1 (by rw [← hcon']; exact List.mem_map_of_mem Prod.fst hq))
    show List.foldl (fun m q => mapInsert m q.1 q.2) (mapInsert acc k v) rest = _
    rw [hins, this, List.append_assoc]
    rfl

lemma parseKeyValuePairs_free (s : Str) :
    ∀ q ∈ parseKeyValuePairs s,
      (∀ c ∈ q.1, (c == '\\') = false) ∧ (∀ c ∈ q.2, (c == '\\') = false) := by
  intro q hq
  unfold parseKeyValuePairs at hq
  split at hq
  · simp at hq
  · rcases foldKV_mem _ [] q hq with h | h
    · simp at h
    · obtain ⟨a, b⟩ := q
      obtain ⟨ha, hb⟩ := pairUp_mem _ a b h
      exact ⟨splitOnP_mem_no_p _ _ a (List.mem_of_mem_drop ha),
        splitOnP_mem_no_p _ _ b (List.mem_of_mem_drop hb)⟩

lemma parseKeyValuePairs_keys_nodup (s : Str) :
    ((parseKeyValuePairs s).map Prod.fst).Nodup := by
  unfold parseKeyValuePairs
  split
  · simp
  · exact foldKV_keys_nodup _ [] (by simp)

/-! ## Claims -/

/-- C2: a cache populated by a successful refresh serves every pre-expiry
`Snapshot` call from the cache (returning the cached sequence, leaving the
state unchanged, not invoking the source), while a call at or after the
expiry instant invokes the source. -/
theorem c2_ttl_cache (d0 d : PlayerDirectory) (t0 : Nat) (ps : List Player)
    (hps : ps ≠ [])
    (href : Snapshot d0 t0 (Except.ok ps) = (Except.ok ps, d, true)) :
    (∀ now src, now < d.expires → Snapshot d now src = (Except.ok d.players, d, false)) ∧
    (∀ now src, d.expires ≤ now → (Snapshot d now src).2.2 = true) := by
  have hd : d.players = ps := by
    unfold Snapshot at href
    split at href
    · simp at href
    · simp only [Prod.mk.injEq] at href
      obtain ⟨-, h2, -⟩ := href
      rw [← h2]
  refine ⟨fun now src hlt => ?_, fun now src hge => ?_⟩
  · exact snapshot_cacheHit d now src (by rw [hd]; exact hps) hlt
  · have hcond : ¬(0 < d.players.length ∧ now < d.expires) := by
      rintro ⟨-, h⟩; omega
    unfold Snapshot
    rw [if_neg hcond]
    cases src <;> rfl

/-- C2 witness: after a refresh that cached one player with expiry 5, a call
at instant 3 is served from the cache and a call at instant 5 hits the source. -/
theorem c2_witness :
    Snapshot ⟨[⟨7, "Alice".data, "g1".data⟩], 5, 5⟩ 3 (Except.ok []) =
      (Except.ok [⟨7, "Alice".data, "g1".data⟩], ⟨[⟨7, "Alice".data, "g1".data⟩], 5, 5⟩, false) ∧
    (Snapshot ⟨[⟨7, "Alice".data, "g1".data⟩], 5, 5⟩ 5 (Except.ok [])).2.2 = true := by
  have h := c2_ttl_cache ⟨[], 0, 5⟩ ⟨[⟨7, "Alice".data, "g1".data⟩], 5, 5⟩ 0
      [⟨7, "Alice".data, "g1".data⟩] (by decide) (by decide)
  exact ⟨h.1 3 (Except.ok []) (by decide), h.2 5 (Except.ok []) (by decide)⟩

/-- C5: when the source's `Status` fails, `Snapshot` leaves the cached
sequence and expiry exactly as they were (unconditionally), and on the
refresh path it returns that same error. -/
theorem c5_refresh_failure_preserves_cache (d : PlayerDirectory) (now : Nat) (e : String) :
    (Snapshot d now (Except.error e)).2.1 = d ∧
    (¬(0 < d.players.length ∧ now < d.expires) →
      Snapshot d now (Except.error e) = (Except.error e, d, true)) := by
  unfold Snapshot
  split
  · exact ⟨rfl, fun hcon => absurd (by assumption) hcon⟩
  · exact ⟨rfl, fun _ => rfl⟩

/-- C5 witness: a failing refresh on an empty, expired cache returns the
error and leaves the directory state untouched. -/
theorem c5_refresh_failure_witness :
    (Snapshot ⟨[], 0, 5⟩ 0 (Except.error "boom")).2.1 = (⟨[], 0, 5⟩ : PlayerDirectory) ∧
    Snapshot ⟨[], 0, 5⟩ 0 (Except.error "boom") = (Except.error "boom", ⟨[], 0, 5⟩, true) := by
  have h := c5_refresh_failure_preserves_cache ⟨[], 0, 5⟩ 0 "boom"
  exact ⟨h.1, h.2 (by decide)⟩

/-- C9: a query that strips and trims to the empty string makes
`FindByName` return "not found" with no error, without calling `Snapshot`:
the state is unchanged, the source is not invoked, and no source error can
surface (here the source would even fail if consulted). -/
theorem c9_empty_query_no_source (d : PlayerDirectory) (now : Nat)
    (src : Except String (List Player)) (q : Str)
    (h : trimSpace (stripColorCodes q) = []) :
    FindByName d now src q = (Except.ok none, d, false) := by
  unfold FindByName
  rw [h]
  rfl

/-- C9 witness: the query `"^"` strips to empty; with a failing source the
call still returns "not found" without error or state change. -/
theorem c9_empty_query_witness :
    FindByName ⟨[], 0, 2⟩ 0 (Except.error "down") "^".data =
      (Except.ok none, ⟨[], 0, 2⟩, false) :=
  c9_empty_query_no_source ⟨[], 0, 2⟩ 0 (Except.error "down") "^".data (by decide)

/-- C7: on a live cached snapshot, `FindByName` strips color markers and
whitespace from the query and returns the first player in snapshot order
whose stripped, lowercased name contains the stripped query
case-insensitively (`List.find?`), and "not found" exactly when no cached
player's stripped name contains it. -/
theorem c7_find_by_name (d : PlayerDirectory) (now : Nat)
    (src : Except String (List Player)) (q : Str)
    (hq : trimSpace (stripColorCodes q) ≠ []) (hne : d.players ≠ [])
    (hlt : now < d.expires) :
    FindByName d now src q =
      (Except.ok (d.players.find? (nameMatches (trimSpace (stripColorCodes q)))), d, false) ∧
    (d.players.find? (nameMatches (trimSpace (stripColorCodes q))) = none ↔
      ∀ p ∈ d.players, nameMatches (trimSpace (stripColorCodes q)) p = false) := by
  constructor
  · unfold FindByName
    rw [if_neg hq, snapshot_cacheHit d now src hne hlt]
    rfl
  · rw [List.find?_eq_none]
    simp

/-- C7 witness: the query `" ALI "` finds the first player `"^1Al^2ice"`
despite case, color markers, and surrounding whitespace. -/
theorem c7_find_by_name_witness :
    FindByName ⟨[⟨0, "^1Al^2ice".data, "g".data⟩, ⟨1, "Bob".data, "h".data⟩], 9, 2⟩ 3
        (Except.error "down") " ALI ".data =
      (Except.ok (some ⟨0, "^1Al^2ice".data, "g".data⟩),
        ⟨[⟨0, "^1Al^2ice".data, "g".data⟩, ⟨1, "Bob".data, "h".data⟩], 9, 2⟩, false) := by
  have h := (c7_find_by_name ⟨[⟨0, "^1Al^2ice".data, "g".data⟩, ⟨1, "Bob".data, "h".data⟩], 9, 2⟩
      3 (Except.error "down") " ALI ".data (by decide) (by decide) (by decide)).1
  rw [h]
  decide

/-- C10: in an uncancelled iteration that hit end-of-file, a failing
`os.Stat` of the tailed path is not fatal: the rotation check is skipped,
the outcome is the cancellable poll-interval sleep, and the read position
is left unchanged. -/
theorem c10_stat_failure_polls (st : TailState) :
    tailStep false st ReadResult.eofHit StatResult.statErr = (StepOutcome.sleepPoll, st) := rfl

/-- C4 counterexample: the two chat parses differ in their `raw` field (the
timestamped line keeps its `1:02:03` prefix in `raw`), so the events are
not identical in every field other than the timestamp. -/
theorem c4_counterexample :
    (ParseEventLine "1:02:03 say PlayerOne hello".data).toOption.map Event.raw ≠
    (ParseEventLine "say PlayerOne hello".data).toOption.map Event.raw := by decide

/-- C4 amended: `classify("1:02:03 say PlayerOne hello")` yields a
`PlayerEvent` with timestamp 3723 seconds that agrees with the parse of
`"say PlayerOne hello"` in command, player, message, xuid and slot, while
each event's `raw` is its own full trimmed input line (so the `raw` fields
differ by exactly the timestamp prefix). -/
theorem c4_timestamped_chat :
    ∃ p1 p2 : PlayerEvent,
      ParseEventLine "1:02:03 say PlayerOne hello".data = Except.ok (Event.player p1) ∧
      ParseEventLine "say PlayerOne hello".data = Except.ok (Event.player p2) ∧
      p1.base.timestamp = some 3723 ∧
      p1.base.command = p2.base.command ∧ p1.player = p2.player ∧
      p1.message = p2.message ∧ p1.xuid = p2.xuid ∧ p1.flag = p2.flag ∧
      p1.base.raw = "1:02:03 say PlayerOne hello".data ∧
      p2.base.raw = "say PlayerOne hello".data := by
  refine ⟨⟨⟨some 3723, "say".data, "1:02:03 say PlayerOne hello".data⟩, [], 0,
      "PlayerOne".data, "hello".data⟩,
    ⟨⟨none, "say".data, "say PlayerOne hello".data⟩, [], 0,
      "PlayerOne".data, "hello".data⟩, ?_, ?_, ?_, ?_, ?_, ?_, ?_, ?_, ?_, ?_⟩ <;> decide

/-- C1 counterexample: `ParseEventLine ";a;1;b"` succeeds (via the generic
player grammar) yet the returned event's command is empty. -/
theorem c1_counterexample :
    (ParseEventLine ";a;1;b".data).toOption.map Event.command = some [] := by decide

/-- C8: a trimmed line that is a single whitespace-delimited token never has
a timestamp extracted (whatever event it classifies to), and when it matches
no other grammar it classifies to a `BaseEvent` whose command is the whole
token, with no timestamp. -/
theorem c8_single_token_no_timestamp (line : Str)
    (hne : trimSpace line ≠ [])
    (hns : ∀ c ∈ trimSpace line, goIsSpace c = false) :
    (∀ ev, ParseEventLine line = Except.ok ev → ev.timestamp = none) ∧
    ("InitGame:".data.isPrefixOf (trimSpace line) = false →
     "ShutdownGame:".data.isPrefixOf (trimSpace line) = false →
     containsChar ';' (trimSpace line) = false →
     ParseEventLine line = Except.ok (Event.base ⟨none, trimSpace line, trimSpace line⟩)) := by
  have hfs : fieldsFn (trimSpace line) = [trimSpace line] := fieldsFn_single _ hne hns
  have hst : stripTs (trimSpace line) = (none, trimSpace line) := by
    apply stripTs_single
    rw [hfs]
    simp
  constructor
  · intro ev hev
    unfold ParseEventLine at hev
    rw [if_neg hne, hst] at hev
    exact classifyLine_ok_timestamp _ _ _ ev hev
  · intro h1 h2 h3
    unfold ParseEventLine
    rw [if_neg hne, hst]
    dsimp only
    unfold classifyLine
    rw [if_neg (by simp [h1]), if_neg (by simp [h2]), if_neg (by simp [h3]),
      if_neg ?hsay]
    case hsay =>
      intro hsay
      rcases Bool.or_eq_true_iff.mp hsay with hs | hs
      · have hmem := (List.isPrefixOf_iff_prefix.mp hs).subset
          (show ' ' ∈ "say ".data by decide)
        exact absurd (hns ' ' hmem) (by decide)
      · have hmem := (List.isPrefixOf_iff_prefix.mp hs).subset
          (show ' ' ∈ "sayteam ".data by decide)
        exact absurd (hns ' ' hmem) (by decide)

/-- C8 witness: the single token `1:02:03` has timestamp form but classifies
as a `BaseEvent` carrying the whole token as command, with no timestamp. -/
theorem c8_single_token_witness :
    ParseEventLine "1:02:03".data =
      Except.ok (Event.base ⟨none, "1:02:03".data, "1:02:03".data⟩) := by
  have h := c8_single_token_no_timestamp "1:02:03".data (by decide) (by decide)
  exact h.2 (by decide) (by decide) (by decide)

/-- C1 amended: a successful parse returns a non-empty command unless the
post-timestamp line begins with a semicolon (in which case the generic
player grammar makes the command the empty first field). -/
theorem c1_nonempty_command_amended (line : Str) (ev : Event)
    (h : ParseEventLine line = Except.ok ev) :
    Event.command ev ≠ [] ∨ ((stripTs (trimSpace line)).2).head? = some ';' := by
  unfold ParseEventLine at h
  by_cases hne : trimSpace line = []
  · rw [if_pos hne] at h
    cases h
  · rw [if_neg hne] at h
    have hl2 : (stripTs (trimSpace line)).2 ≠ [] ∧
        ∀ a, ((stripTs (trimSpace line)).2).head? = some a → goIsSpace a = false := by
      rcases stripTs_cases (trimSpace line) with hcase | ⟨d, t, ts0, hf, hts, hcase⟩
      · rw [hcase]
        exact ⟨hne, fun a ha => trimSpace_head_not_space line a ha⟩
      · rw [hcase]
        dsimp only
        cases ts0 with
        | nil => exact absurd rfl hts
        | cons u us =>
          have hu : u ∈ fieldsFn (trimSpace line) := by
            rw [hf]
            exact List.mem_cons_of_mem _ (List.mem_cons_self u us)
          obtain ⟨hune, huns⟩ := fieldsFn_mem _ u hu
          refine ⟨joinSep_ne_nil _ u us hune, ?_⟩
          intro a ha
          rw [joinSep_head? _ u us hune] at ha
          cases u with
          | nil => exact absurd rfl hune
          | cons b bs =>
            simp only [List.head?_cons, Option.some.injEq] at ha
            rw [← ha]
            exact huns b (List.mem_cons_self b bs)
    obtain ⟨hl2ne, hl2hd⟩ := hl2
    unfold classifyLine at h
    split at h
    · cases h
      exact Or.inl (by simp [Event.command])
    · split at h
      · cases h
        exact Or.inl (by simp [Event.command])
      · split at h
        · -- semicolon branch
          cases hj : parseJoinEvent (stripTs (trimSpace line)).2 (stripTs (trimSpace line)).1
              (trimSpace line) with
          | ok pj =>
            rw [hj] at h
            cases h
            exact Or.inl (by simp [Event.command, (parseJoinEvent_ok _ _ _ pj hj).1])
          | error ej =>
            rw [hj] at h
            cases hk : parseKillEvent (stripTs (trimSpace line)).2 (stripTs (trimSpace line)).1
                (trimSpace line) with
            | ok pk =>
              rw [hk] at h
              cases h
              exact Or.inl (by simp [Event.command, (parseKillEvent_ok _ _ _ pk hk).1])
            | error ek =>
              rw [hk] at h
              cases hp : parsePlayerEvent (stripTs (trimSpace line)).2
                  (stripTs (trimSpace line)).1 (trimSpace line) with
              | ok pp =>
                rw [hp] at h
                simp only [Except.map] at h
                cases h
                have hcmd := (parsePlayerEvent_ok _ _ _ pp hp).1
                by_cases hc :
                    trimSpace ((splitNChar ';' 5 ((stripTs (trimSpace line)).2)).getD 0 []) = []
                · refine Or.inr ?_
                  apply (splitN5_head _ hl2ne).1
                  have hall := (trimSpace_eq_nil_iff _).mp hc
                  cases hp0 : (splitNChar ';' 5 ((stripTs (trimSpace line)).2)).getD 0 [] with
                  | nil => rfl
                  | cons a as =>
                    have hhd := (splitN5_head _ hl2ne).2 a (by rw [hp0]; rfl)
                    have := hl2hd a hhd
                    rw [hp0] at hall
                    exact absurd (hall a (List.mem_cons_self a as)) (by simp [this])
                · refine Or.inl ?_
                  show pp.base.command ≠ []
                  rw [hcmd]
                  exact hc
              | error ep =>
                rw [hp] at h
                simp only [Except.map] at h
                cases h
        · split at h
          · -- chat branch
            cases hcp : parseChatPlayerEvent (stripTs (trimSpace line)).2
                (stripTs (trimSpace line)).1 (trimSpace line) with
            | ok pc =>
              rw [hcp] at h
              simp only [Except.map] at h
              cases h
              obtain ⟨hcmd, hlen, -⟩ := parseChatPlayerEvent_ok _ _ _ pc hcp
              cases hf : fieldsFn ((stripTs (trimSpace line)).2) with
              | nil => rw [hf] at hlen; simp at hlen
              | cons t rest =>
                refine Or.inl ?_
                show pc.base.command ≠ []
                rw [hcmd, hf]
                exact (fieldsFn_mem _ t (by rw [hf]; exact List.mem_cons_self t rest)).1
            | error ec =>
              rw [hcp] at h
              simp only [Except.map] at h
              cases h
          · cases h
            exact Or.inl hl2ne

/-- C1 witness: an ordinary line parses with a non-empty command (the left
disjunct) since it does not start with a semicolon. -/
theorem c1_nonempty_command_witness :
    Event.command (Event.base ⟨none, "hello".data, "hello".data⟩) ≠ [] ∨
    ((stripTs (trimSpace "hello".data)).2).head? = some ';' :=
  c1_nonempty_command_amended "hello".data
    (Event.base ⟨none, "hello".data, "hello".data⟩) (by decide)

lemma exceptOk_eq_false {ε α : Type} (x : Except ε α) (h : exceptOk x = false) :
    ∃ e, x = Except.error e := by
  cases x with
  | error e => exact ⟨e, rfl⟩
  | ok a => simp [exceptOk] at h

/-- C6: a semicolon-containing line rejected by the join, kill and generic
player sub-grammars makes `ParseEventLine` return a single error value
(total, no abort), and the tailer loop drops exactly that line and
continues with the remaining lines. -/
theorem c6_malformed_semicolon_line (line : Str) (rest : List Str)
    (h0 : trimSpace line ≠ [])
    (h1 : "InitGame:".data.isPrefixOf (stripTs (trimSpace line)).2 = false)
    (h2 : "ShutdownGame:".data.isPrefixOf (stripTs (trimSpace line)).2 = false)
    (h3 : containsChar ';' (stripTs (trimSpace line)).2 = true)
    (h4 : exceptOk (parseJoinEvent (stripTs (trimSpace line)).2 (stripTs (trimSpace line)).1
            (trimSpace line)) = false)
    (h5 : exceptOk (parseKillEvent (stripTs (trimSpace line)).2 (stripTs (trimSpace line)).1
            (trimSpace line)) = false)
    (h6 : (splitNChar ';' 5 ((stripTs (trimSpace line)).2)).length < 4 ∨
          atoi (trimSpace ((splitNChar ';' 5 ((stripTs (trimSpace line)).2)).getD 2 [])) = none) :
    (∃ e, ParseEventLine line = Except.error e) ∧
    processLines (line :: rest) = processLines rest := by
  have hplayer : ∃ e, parsePlayerEvent (stripTs (trimSpace line)).2
      (stripTs (trimSpace line)).1 (trimSpace line) = Except.error e := by
    unfold parsePlayerEvent
    rcases h6 with h6 | h6
    · rw [if_pos h6]
      exact ⟨_, rfl⟩
    · by_cases hlen : (splitNChar ';' 5 ((stripTs (trimSpace line)).2)).length < 4
      · rw [if_pos hlen]
        exact ⟨_, rfl⟩
      · rw [if_neg hlen, h6]
        exact ⟨_, rfl⟩
  have hparse : ∃ e, ParseEventLine line = Except.error e := by
    unfold ParseEventLine
    rw [if_neg h0]
    unfold classifyLine
    rw [if_neg (by simp [h1]), if_neg (by simp [h2]), if_pos h3]
    obtain ⟨ej, hj⟩ := exceptOk_eq_false _ h4
    rw [hj]
    obtain ⟨ek, hk⟩ := exceptOk_eq_false _ h5
    rw [hk]
    obtain ⟨ep, hp⟩ := hplayer
    rw [hp]
    exact ⟨ep, rfl⟩
  refine ⟨hparse, ?_⟩
  have hnone : handleLine line = none := by
    unfold handleLine
    by_cases hrn : trimRightRN line = []
    · rw [if_pos hrn]
    · rw [if_neg hrn,
        ParseEventLine_congr (trimRightRN line) line (trimSpace_trimRightRN line)]
      obtain ⟨e, he⟩ := hparse
      rw [he]
  show (match handleLine line with
    | none => processLines rest
    | some ev => ev :: processLines rest) = processLines rest
  rw [hnone]

/-- C6 witness: the line `a;b` contains a semicolon but matches no
sub-grammar; it parses to an error and the tailer drops it and goes on. -/
theorem c6_malformed_semicolon_witness :
    (∃ e, ParseEventLine "a;b".data = Except.error e) ∧
    processLines ["a;b".data, "x".data] = processLines ["x".data] :=
  c6_malformed_semicolon_line "a;b".data ["x".data] (by decide) (by decide) (by decide)
    (by decide) (by decide) (by decide) (Or.inl (by decide))

/-- C3 counterexample: for the blob `\a\x \j` the mapping is `a ↦ "x "`;
re-serializing and re-parsing trims the trailing space of the final value,
so the key `a` maps to a different value than in the original blob. -/
theorem c3_counterexample :
    kvGet (parseKeyValuePairs (serializeKV (parseKeyValuePairs "\\a\\x \\j".data))) "a".data ≠
    kvGet (parseKeyValuePairs "\\a\\x \\j".data) "a".data := by decide

/-- C3 amended: for every `InitGame` key/value blob in which no parsed value
ends in whitespace, parsing, re-serializing the mapping as `\key\value`
pairs, and re-parsing recovers exactly the same mapping — hence the same
set of key/value pairs regardless of the ordering of pairs in the input
blob.  (Without that proviso, the trailing whitespace of the value
serialized last is lost to trimming, as the counterexample shows.) -/
theorem c3_roundtrip_amended (s : Str)
    (hval : ∀ q ∈ parseKeyValuePairs s, ∀ c, q.2.getLast? = some c → goIsSpace c = false) :
    parseKeyValuePairs (serializeKV (parseKeyValuePairs s)) = parseKeyValuePairs s := by
  have hfree := parseKeyValuePairs_free s
  have hnodup := parseKeyValuePairs_keys_nodup s
  by_cases hm : parseKeyValuePairs s = []
  · rw [hm]
    rfl
  · have hser : splitOnChar '\\' (serializeKV (parseKeyValuePairs s)) =
        [] :: flattenKV (parseKeyValuePairs s) :=
      splitOnChar_serializeKV (parseKeyValuePairs s) hm hfree
    have hser_ne : serializeKV (parseKeyValuePairs s) ≠ [] := by
      cases hc : parseKeyValuePairs s with
      | nil => exact absurd hc hm
      | cons q rest =>
        obtain ⟨k, v⟩ := q
        rw [serializeKV_cons]
        simp
    have hhead : ∀ a, (serializeKV (parseKeyValuePairs s)).head? = some a →
        goIsSpace a = false := by
      intro a ha
      cases hc : parseKeyValuePairs s with
      | nil => exact absurd hc hm
      | cons q rest =>
        obtain ⟨k, v⟩ := q
        rw [hc, serializeKV_cons] at ha
        simp only [List.head?_cons, Option.some.injEq] at ha
        rw [← ha]
        decide
    have htrim : trimSpace (serializeKV (parseKeyValuePairs s)) =
        serializeKV (parseKeyValuePairs s) :=
      trimSpace_eq_self _ hhead
        (serializeKV_getLast_not_space (parseKeyValuePairs s) hval)
    conv =>
      lhs
      rw [parseKeyValuePairs]
    rw [htrim, if_neg hser_ne, hser]
    show (pairUp (flattenKV (parseKeyValuePairs s))).foldl
        (fun m q => mapInsert m q.1 q.2) [] = parseKeyValuePairs s
    rw [pairUp_flattenKV]
    have := foldKV_id (parseKeyValuePairs s) [] hnodup
      (fun q hq r hr => absurd hr (List.not_mem_nil r))
    rw [this]
    rfl

/-- C3 witness: the blob `\a\b\c\d` (no value ends in whitespace)
round-trips to exactly the same mapping. -/
theorem c3_roundtrip_witness :
    parseKeyValuePairs (serializeKV (parseKeyValuePairs "\\a\\b\\c\\d".data)) =
      parseKeyValuePairs "\\a\\b\\c\\d".data :=
  c3_roundtrip_amended "\\a\\b\\c\\d".data (by decide)

end Events
